import Mathlib

/-!
Verification of the binary-compatibility checker core (`qbic.cpp`):
dump parsing, vtable-entry normalization, destructor matching, and the
vtable/size differ.  Qt strings are modelled as `List Char`; each Qt
string primitive used by the source is given its documented semantics
(`right`/`left`/`mid` clamping, `section` field extraction, `simplified`
whitespace collapsing, `toInt`/`toLongLong` range-checked parsing).
-/

/-- Characters of a Qt string. -/
abbrev QStr := List Char

/-- Convert a Lean string literal to the character-list model. -/
def strL (s : String) : QStr := s.toList

/-- Boolean sublist-at-front check (`QString::startsWith`). -/
def pfx : QStr → QStr → Bool
  | [], _ => true
  | _ :: _, [] => false
  | a :: p, b :: s => a == b && pfx p s

/-- Boolean suffix check (`QString::endsWith`). -/
def sfx (p s : QStr) : Bool := pfx p.reverse s.reverse

/-- All positions at which `sub` occurs in `s`. -/
def occursAt (sub s : QStr) : List Nat :=
  (List.range (s.length + 1)).filter (fun i => pfx sub (s.drop i))

/-- Index of the first occurrence of `sub`, `-1` when absent (`QString::indexOf`). -/
def firstIdxSub (sub s : QStr) : Int :=
  match occursAt sub s with
  | [] => -1
  | i :: _ => (i : Int)

/-- Index of the last occurrence of `sub`, `-1` when absent (`QString::lastIndexOf`). -/
def lastIdxSub (sub s : QStr) : Int :=
  match (occursAt sub s).getLast? with
  | none => -1
  | some i => (i : Int)

/-- Substring containment (`QString::contains`). -/
def hasSub (sub s : QStr) : Bool := !(occursAt sub s).isEmpty

/-- Index of the first occurrence of a character, `-1` when absent. -/
def idxOfChar (c : Char) (s : QStr) : Int := firstIdxSub [c] s

/-- `QString::left(n)`: the whole string when `n < 0` or `n ≥ size`. -/
def leftQ (s : QStr) (n : Int) : QStr :=
  if n < 0 ∨ (s.length : Int) ≤ n then s else s.take n.toNat

/-- `QString::right(n)`: the whole string when `n < 0` or `n ≥ size`. -/
def rightQ (s : QStr) (n : Int) : QStr :=
  if n < 0 ∨ (s.length : Int) ≤ n then s else s.drop (s.length - n.toNat)

/-- `QString::mid(pos)`: negative positions clamp to `0`, large ones give `""`. -/
def midQ (s : QStr) (pos : Int) : QStr := s.drop pos.toNat

/-- `QString::chop(n)` as a pure function: remove the last `n` characters. -/
def chopQ (s : QStr) (n : Nat) : QStr := s.take (s.length - n)

/-- `QString::remove(pos, n)` as a pure function. -/
def removeQ (s : QStr) (pos n : Nat) : QStr := s.take pos ++ s.drop (pos + n)

/-- Fuelled worker for `splitOnL`; the fuel is the length of the remaining input. -/
def splitGo (sep : QStr) : Nat → QStr → QStr → List QStr
  | _, [], acc => [acc.reverse]
  | 0, s, acc => [acc.reverse ++ s]
  | f + 1, c :: rest, acc =>
    if pfx sep (c :: rest) then
      acc.reverse :: splitGo sep f ((c :: rest).drop sep.length) []
    else
      splitGo sep f rest (c :: acc)

/-- `QString::split(sep)` with the default `KeepEmptyParts` behaviour. -/
def splitOnL (sep s : QStr) : List QStr := splitGo sep s.length s []

/-- `QString::section(sep, i, i)`: the `i`-th field, empty fields kept. -/
def sectionQ (sep : QStr) (i : Nat) (s : QStr) : QStr := (splitOnL sep s).getD i []

/-- The whitespace class used by `QString::simplified`. -/
def isQSpace (c : Char) : Bool :=
  c == ' ' || c == '\t' || c == '\n' || c == '\x0b' || c == '\x0c' || c == '\r'

/-- Fuelled worker for `simplifiedL`; input starts with a non-space character. -/
def simpGo : Nat → QStr → QStr
  | _, [] => []
  | 0, s => s
  | f + 1, c :: rest =>
    if isQSpace c then
      match List.dropWhile isQSpace rest with
      | [] => []
      | r :: rs => ' ' :: simpGo f (r :: rs)
    else c :: simpGo f rest

/-- `QString::simplified`: trim and collapse interior whitespace runs. -/
def simplifiedL (s : QStr) : QStr :=
  simpGo s.length (List.dropWhile isQSpace s)

/-- Value of a non-empty decimal digit string. -/
def decDigitsVal (s : QStr) : Nat :=
  s.foldl (fun a c => a * 10 + (c.toNat - 48)) 0

/-- Decimal digit-run parser: `none` unless non-empty and all digits. -/
def digitsVal? (s : QStr) : Option Nat :=
  if s.isEmpty || !(s.all Char.isDigit) then none else some (decDigitsVal s)

/-- `QString::toInt` (base 10): optional sign, all digits, 32-bit signed range. -/
def toIntQ? (s : QStr) : Option Int :=
  match s with
  | '-' :: r =>
    match digitsVal? r with
    | none => none
    | some m => if m ≤ 2147483648 then some (-(m : Int)) else none
  | '+' :: r =>
    match digitsVal? r with
    | none => none
    | some m => if m ≤ 2147483647 then some ((m : Int)) else none
  | r =>
    match digitsVal? r with
    | none => none
    | some m => if m ≤ 2147483647 then some ((m : Int)) else none

/-- Value of one hexadecimal digit. -/
def hexVal? (c : Char) : Option Nat :=
  if c.isDigit then some (c.toNat - 48)
  else if 'a' ≤ c ∧ c ≤ 'f' then some (c.toNat - 87)
  else if 'A' ≤ c ∧ c ≤ 'F' then some (c.toNat - 55)
  else none

/-- Value of a non-empty hexadecimal digit string, `none` on a bad digit. -/
def hexStrVal? (s : QStr) : Option Nat :=
  if s.isEmpty then none
  else
    s.foldl
      (fun acc c =>
        match acc, hexVal? c with
        | some a, some d => some (a * 16 + d)
        | _, _ => none)
      (some 0)

/-- `QString::toLongLong(ok, 16)`: sign, optional `0x`, hex digits, 64-bit range. -/
def toLongLongHex? (s : QStr) : Option Int :=
  let signRest : Bool × QStr :=
    match s with
    | '-' :: r => (true, r)
    | '+' :: r => (false, r)
    | r => (false, r)
  let rest :=
    if pfx (strL "0x") signRest.2 || pfx (strL "0X") signRest.2 then
      signRest.2.drop 2
    else signRest.2
  match hexStrVal? rest with
  | none => none
  | some m =>
    if signRest.1 then (if m ≤ 2 ^ 63 then some (-(m : Int)) else none)
    else (if m ≤ 2 ^ 63 - 1 then some ((m : Int)) else none)

/-- `QString::number` on a natural number. -/
def natToStr (n : Nat) : QStr := Nat.toDigits 10 n

/-- `QString::number` on a signed 64-bit value. -/
def intToStr (v : Int) : QStr :=
  if v < 0 then '-' :: natToStr v.natAbs else natToStr v.natAbs

/-- Translation of `qualifiedTailMatch` from `qbic.cpp`: exact match, else
take the rightmost `expectedTail.length - 2` characters and require them to
start with `"::"` and end with `expectedTail`. -/
def qualifiedTailMatch (expectedTail symbol : QStr) : Bool :=
  if symbol = expectedTail then true
  else
    let tl := rightQ symbol ((expectedTail.length : Int) - 2)
    if !(pfx (strL "::") tl) then false
    else sfx expectedTail tl

/-- Translation of `innerClassVTableSymbol`: the Itanium-style
`_ZTVN<len(outer)><outer><len(inner)><inner>E` candidate. -/
def innerClassVTableSymbol (outerClass innerClass : QStr) : QStr :=
  strL "_ZTVN" ++ natToStr outerClass.length ++ outerClass
    ++ natToStr innerClass.length ++ innerClass ++ strL "E"

/-- Translation of `nonVirtualThunkToDestructorSymbols`: the six
`<C>::_ZThn<off>_N<len><C>D<i>Ev` candidates for offsets 16, 32, 40 and
destructor indices 0, 1. -/
def nonVirtualThunkToDestructorSymbols (className : QStr) : List QStr :=
  let cand := fun (off : Nat) =>
    className ++ strL "::_ZThn" ++ natToStr off ++ strL "_N"
      ++ natToStr className.length ++ className
  let candidates := [cand 16, cand 32, cand 40]
  let dsuffix := fun (i : Nat) => strL "D" ++ natToStr i ++ strL "Ev"
  candidates.map (· ++ dsuffix 0) ++ candidates.map (· ++ dsuffix 1)

/-- Translation of `parseClassName`: returns `(className, qualifiedClassName)`.
Splits the label on `"::"`; a genuine nested class is recognized when the
whole label equals `Outer::Inner::<innerClassVTableSymbol Outer Inner>`. -/
def parseClassName (mangledClassName : QStr) : QStr × QStr :=
  let outerClassCandidate := sectionQ (strL "::") 0 mangledClassName
  let innerClassCandidate := sectionQ (strL "::") 1 mangledClassName
  let vtsCandidate := innerClassVTableSymbol outerClassCandidate innerClassCandidate
  let qualifiedCandidate :=
    outerClassCandidate ++ strL "::" ++ innerClassCandidate ++ strL "::" ++ vtsCandidate
  if mangledClassName = qualifiedCandidate then
    (innerClassCandidate, outerClassCandidate ++ strL "::" ++ innerClassCandidate)
  else
    (outerClassCandidate, outerClassCandidate)

/-- Translation of `matchDestructor`: does `symbol` refer to the destructor
of the class labelled `mangledClassName` (directly or via a thunk variant)? -/
def matchDestructor (mangledClassName symbol : QStr) : Bool :=
  let p := parseClassName mangledClassName
  let className := p.1
  let qualifiedClassName := p.2
  let destructor := qualifiedClassName ++ strL "::~" ++ className
  if qualifiedTailMatch destructor symbol then true
  else
    (nonVirtualThunkToDestructorSymbols className).any
      (fun c => qualifiedTailMatch c symbol)

/-- Symbol-token extraction step of `normalizedVTable`: everything after the
first space, with the parenthesized-cast unwrapping and the `"& "` marker
removal performed exactly as in the source. -/
def extractSym (line : QStr) : QStr :=
  let sym0 := midQ line (idxOfChar ' ' line + 1)
  let sym1 :=
    if pfx (strL "(") sym0 then
      if sfx (strL ")") sym0 then
        chopQ (midQ sym0 (lastIdxSub (strL "(") sym0 + 1)) 1
      else
        midQ sym0 (lastIdxSub (strL ")") sym0 + 1)
    else
      leftQ sym0 (firstIdxSub (strL "(") sym0)
  if pfx (strL "& ") sym1 then removeQ sym1 1 1 else sym1

/-- Destructor-zeroing step of `normalizedVTable`. -/
def zeroIfDtor (className sym : QStr) : QStr :=
  if matchDestructor className sym then strL "0" else sym

/-- Trailing-`u` removal before the hex reinterpretation. -/
def uChop (s : QStr) : QStr := if sfx (strL "u") s then chopQ s 1 else s

/-- Per-line normalization from `normalizedVTable`'s loop body: `none` when
the line is skipped with a warning (bad leading index or bad hex token). -/
def normalizeLine (className rawLine : QStr) : Option QStr :=
  let line := simplifiedL rawLine
  match toIntQ? (leftQ line (idxOfChar ' ' line)) with
  | none => none
  | some num =>
    let sym := zeroIfDtor className (extractSym line)
    if pfx (strL "-0") sym || pfx (strL "0") sym then
      match toLongLongHex? (uChop sym) with
      | none => none
      | some v => some (intToStr num ++ strL " " ++ intToStr v)
    else
      some (intToStr num ++ strL " " ++ sym)

/-- Translation of `normalizedVTable`: the class name comes from the second
block line (text before the first space, trailing `:` chopped); the entry
lines from the third onward are normalized, skipped lines dropped. -/
def normalizedVTable (entry : List QStr) : List QStr :=
  let className := chopQ (sectionQ (strL " ") 0 (entry.getD 1 [])) 1
  (entry.drop 2).filterMap (normalizeLine className)

/-- Translation of `QBic::isBlacklisted`: template instantiations (names
containing `<`) are always blacklisted, then the configured matchers run.
The wildcard/regex pattern list is modelled as a list of Boolean matchers. -/
def isBlacklisted (blackList : List (QStr → Bool)) (className : QStr) : Bool :=
  if className.any (fun c => c == '<') then true
  else blackList.any (fun p => p className)

/-- Leftmost match of the regular expression `size=(\d+)`: the first position
where `size=` is followed by a digit, capturing the maximal digit run. -/
def findSize : QStr → Option Nat
  | [] => none
  | c :: rest =>
    if pfx (strL "size=") (c :: rest)
        && !((c :: rest).drop 5 |>.takeWhile Char.isDigit).isEmpty then
      some (decDigitsVal ((c :: rest).drop 5 |>.takeWhile Char.isDigit))
    else
      findSize rest

/-- `QString::toInt` applied to the captured digit run (overflow yields 0). -/
def capInt (n : Nat) : Int := if n ≤ 2147483647 then (n : Int) else 0

/-- The parsed state of one library (`QBic::Info`): class sizes and
normalized vtables, keyed by class name. -/
structure Info where
  classSizes : List (QStr × Int) := []
  classVTables : List (QStr × List QStr) := []
deriving DecidableEq

/-- The empty snapshot, as returned for an unreadable input file. -/
def emptyInfo : Info := ⟨[], []⟩

/-- First value stored under a key (`QHash::value`). -/
def lookupKV {α : Type} : List (QStr × α) → QStr → Option α
  | [], _ => none
  | (k', v) :: t, k => if k' = k then some v else lookupKV t k

/-- Key-presence check (`QHash::contains`). -/
def containsKV {α : Type} (l : List (QStr × α)) (k : QStr) : Bool :=
  (lookupKV l k).isSome

/-- `QHash::operator[]=`: overwrite the existing binding or append a new one. -/
def setKV {α : Type} : List (QStr × α) → QStr → α → List (QStr × α)
  | [], k, v => [(k, v)]
  | (k', v') :: t, k, v =>
    if k' = k then (k, v) :: t else (k', v') :: setKV t k v

/-- One block of `QBic::parseOutput`'s loop: dispatch on the `"Class "` /
`"Vtable for "` prefix of the first line, blacklist-check the raw label,
and store the parsed size or normalized vtable under that label. -/
def processBlock (blackList : List (QStr → Bool)) (info : Info) (str : QStr) : Info :=
  let entry := splitOnL (strL "\n") str
  if entry.length < 2 then info
  else if pfx (strL "Class ") (entry.getD 0 []) then
    let className := (entry.getD 0 []).drop 6
    if isBlacklisted blackList className then info
    else
      match findSize (entry.getD 1 []) with
      | none => info
      | some n => { info with classSizes := setKV info.classSizes className (capInt n) }
  else if pfx (strL "Vtable for ") (entry.getD 0 []) then
    let className := (entry.getD 0 []).drop 11
    if isBlacklisted blackList className then info
    else { info with classVTables := setKV info.classVTables className (normalizedVTable entry) }
  else info

/-- Translation of `QBic::parseOutput`: split the dump on blank lines and
fold the block processor over the blocks. -/
def parseOutput (blackList : List (QStr → Bool)) (ba : QStr) : Info :=
  (splitOnL (strL "\n\n") ba).foldl (processBlock blackList) emptyInfo

/-- Translation of `QBic::parseFile`: the file system is modelled as the
optional file contents; an unreadable file yields the empty snapshot. -/
def parseFile (blackList : List (QStr → Bool)) (contents : Option QStr) : Info :=
  match contents with
  | none => emptyInfo
  | some ba => parseOutput blackList ba

/-- First line of a raw block (used to state where parsed keys come from). -/
def firstLine (b : QStr) : QStr := (splitOnL (strL "\n") b).getD 0 []

/-- The `VTableDiffResult` enumeration from `qbic.cpp`. -/
inductive VTableDiffResult where
  | Match
  | Mismatch
  | Reimp
deriving DecidableEq

/-- Translation of `diffVTableEntry`; `v1` is the new-snapshot entry and
`v2` the old-snapshot entry, exactly as at the call site in `diffVTables`. -/
def diffVTableEntry (v1 v2 : QStr) : VTableDiffResult :=
  if v1 = v2 then .Match
  else if sfx (strL "__cxa_pure_virtual") v2 then .Reimp
  else if !(hasSub (strL "::") v1) || !(hasSub (strL "::") v2) then .Mismatch
  else
    let sym1 := midQ v1 (lastIdxSub (strL "::") v1 + 2)
    let sym2 := midQ v2 (lastIdxSub (strL "::") v2 + 2)
    if sym1 = sym2 then .Reimp else .Mismatch

/-- The vtable diff report (`QBic::VTableDiff`). -/
structure VTableDiff where
  addedVTables : List QStr := []
  removedVTables : List QStr := []
  modifiedVTables : List (QStr × QStr) := []
  reimpMethods : List (QStr × QStr) := []
deriving DecidableEq

/-- Positional entry comparison of `diffVTables`' inner loop, returning the
`(modifiedVTables, reimpMethods)` contributions in slot order; pairs are
`(old entry, new entry)` as appended by the source. -/
def diffEntriesLoop : List QStr → List QStr → List (QStr × QStr) × List (QStr × QStr)
  | n :: ns, o :: os =>
    let rest := diffEntriesLoop ns os
    match diffVTableEntry n o with
    | .Match => rest
    | .Mismatch => ((o, n) :: rest.1, rest.2)
    | .Reimp => (rest.1, (o, n) :: rest.2)
  | _, _ => ([], [])

/-- First loop of `QBic::diffVTables`: walk the new snapshot's vtable map,
accumulating additions, size-mismatch sentinels, and per-entry results. -/
def diffNewLoop (oldT : List (QStr × List QStr)) : List (QStr × List QStr) → VTableDiff
  | [] => ⟨[], [], [], []⟩
  | (k, v) :: t =>
    let r := diffNewLoop oldT t
    match lookupKV oldT k with
    | none => { r with addedVTables := k :: r.addedVTables }
    | some oldV =>
      if v.length ≠ oldV.length then
        { r with modifiedVTables := (k, strL "size mismatch") :: r.modifiedVTables }
      else
        let pr := diffEntriesLoop v oldV
        { r with
          modifiedVTables := pr.1 ++ r.modifiedVTables,
          reimpMethods := pr.2 ++ r.reimpMethods }

/-- Translation of `QBic::diffVTables`: the first loop over the new
snapshot, then the second loop appending removals for old-only classes. -/
def diffVTables (oldLib newLib : Info) : VTableDiff :=
  let r := diffNewLoop oldLib.classVTables newLib.classVTables
  { r with
    removedVTables :=
      r.removedVTables ++
        ((oldLib.classVTables.filter
            (fun kv => !(containsKV newLib.classVTables kv.1))).map Prod.fst) }

/-- The size diff report (`QBic::SizeDiff`). -/
structure SizeDiff where
  added : List QStr := []
  removed : List QStr := []
  mismatch : List QStr := []
deriving DecidableEq

/-- First loop of `QBic::diffSizes` over the new snapshot's size map. -/
def diffSizesLoop (oldS : List (QStr × Int)) : List (QStr × Int) → SizeDiff
  | [] => ⟨[], [], []⟩
  | (k, v) :: t =>
    let r := diffSizesLoop oldS t
    match lookupKV oldS k with
    | none => { r with added := k :: r.added }
    | some ov => if ov ≠ v then { r with mismatch := k :: r.mismatch } else r

/-- Translation of `QBic::diffSizes`. -/
def diffSizes (oldLib newLib : Info) : SizeDiff :=
  let r := diffSizesLoop oldLib.classSizes newLib.classSizes
  { r with
    removed :=
      r.removed ++
        ((oldLib.classSizes.filter
            (fun kv => !(containsKV newLib.classSizes kv.1))).map Prod.fst) }
/-- The two-block dump from the spec's worked example. -/
def fooDump : QStr :=
  strL "Class Foo\n  size=16 align=8\n\nVtable for Foo\nFoo::_ZTV3Foo: 3u entries\n0 (int (*)(...))0\n1 Foo::~Foo\n2 Foo::bar"

/-- A dump with one genuine nested-class vtable block: the label equals
`Outer::Inner::<innerClassVTableSymbol Outer Inner>`. -/
def nestedDump : QStr :=
  strL "Vtable for Outer::Inner::_ZTVN5Outer5InnerE\nOuter::Inner::_ZTVN5Outer5InnerE: 1u entries\n0 (int (*)(...))0"

/-- Snapshot in which class `C`'s single vtable slot holds an implementation. -/
def implLib : Info := ⟨[], [(strL "C", [strL "0 C::f"])]⟩

/-- Snapshot in which class `C`'s single vtable slot is the pure-virtual stub. -/
def pureLib : Info := ⟨[], [(strL "C", [strL "0 __cxa_pure_virtual"])]⟩

/-- Snapshot with a two-slot vtable for `C` (old side of a length mismatch). -/
def mismatchOldLib : Info := ⟨[], [(strL "C", [strL "0 a", strL "1 b"])]⟩

/-- Snapshot with a one-slot vtable for `C` (new side of a length mismatch). -/
def mismatchNewLib : Info := ⟨[], [(strL "C", [strL "0 a"])]⟩

/-- Old snapshot of the spec's size-diff example. -/
def sampleOldLib : Info := ⟨[(strL "Foo", 16)], [(strL "Foo", [strL "0 x"])]⟩

/-- New snapshot of the spec's size-diff example. -/
def sampleNewLib : Info :=
  ⟨[(strL "Foo", 24), (strL "Bar", 8)], [(strL "Foo", [strL "0 x"]), (strL "Bar", [strL "0 y"])]⟩

theorem lookupKV_split {α : Type} {l : List (QStr × α)} {k : QStr} {v : α}
    (h : lookupKV l k = some v) : ∃ p q, l = p ++ (k, v) :: q := by
  induction l with
  | nil => simp [lookupKV] at h
  | cons kv t ih =>
    obtain ⟨k', v'⟩ := kv
    by_cases hk : k' = k
    · subst hk
      simp [lookupKV] at h
      subst h
      exact ⟨[], t, rfl⟩
    · simp [lookupKV, hk] at h
      obtain ⟨p, q, hpq⟩ := ih h
      exact ⟨(k', v') :: p, q, by simp [hpq]⟩

theorem lookupKV_of_nodup {α : Type} {l : List (QStr × α)} {k : QStr} {v : α}
    (hnd : (l.map Prod.fst).Nodup) (hm : (k, v) ∈ l) : lookupKV l k = some v := by
  induction l with
  | nil => simp at hm
  | cons kv t ih =>
    obtain ⟨k', v'⟩ := kv
    simp only [List.map_cons, List.nodup_cons] at hnd
    rcases List.mem_cons.mp hm with h | h
    · have h1 : k = k' := congrArg Prod.fst h
      have h2 : v = v' := congrArg Prod.snd h
      subst h1
      subst h2
      simp [lookupKV]
    · by_cases hk : k' = k
      · subst hk
        exact absurd (List.mem_map.mpr ⟨(k', v), h, rfl⟩) hnd.1
      · simpa [lookupKV, hk] using ih hnd.2 h

theorem containsKV_true_iff {α : Type} (l : List (QStr × α)) (k : QStr) :
    containsKV l k = true ↔ k ∈ l.map Prod.fst := by
  induction l with
  | nil => simp [containsKV, lookupKV]
  | cons kv t ih =>
    obtain ⟨k', v'⟩ := kv
    by_cases hk : k' = k
    · subst hk
      have hc : containsKV ((k', v') :: t) k' = true := by
        simp [containsKV, lookupKV]
      rw [List.map_cons]
      exact ⟨fun _ => List.mem_cons_self _ _, fun _ => hc⟩
    · have h1 : containsKV ((k', v') :: t) k = containsKV t k := by
        simp [containsKV, lookupKV, hk]
      rw [h1, ih]
      simp only [List.map_cons, List.mem_cons]
      constructor
      · exact fun h => Or.inr h
      · rintro (h | h)
        · exact absurd h.symm hk
        · exact h

theorem diffEntriesLoop_self (v : List QStr) : diffEntriesLoop v v = ([], []) := by
  induction v with
  | nil => rfl
  | cons x xs ih =>
    simp [diffEntriesLoop, diffVTableEntry, ih]

theorem diffNewLoop_removed_nil (oldT : List (QStr × List QStr))
    (t : List (QStr × List QStr)) : (diffNewLoop oldT t).removedVTables = [] := by
  induction t with
  | nil => rfl
  | cons kv t ih =>
    obtain ⟨k, v⟩ := kv
    simp only [diffNewLoop]
    cases lookupKV oldT k with
    | none => simpa using ih
    | some ov =>
      by_cases hlen : v.length ≠ ov.length
      · simpa [hlen] using ih
      · simpa [hlen] using ih

theorem diffNewLoop_self {oldT t : List (QStr × List QStr)}
    (h : ∀ kv ∈ t, lookupKV oldT kv.1 = some kv.2) :
    diffNewLoop oldT t = ⟨[], [], [], []⟩ := by
  induction t with
  | nil => rfl
  | cons kv t ih =>
    obtain ⟨k, v⟩ := kv
    have hk : lookupKV oldT k = some v := h (k, v) (List.mem_cons_self _ _)
    have ht : diffNewLoop oldT t = ⟨[], [], [], []⟩ :=
      ih fun kv hm => h kv (List.mem_cons_of_mem _ hm)
    simp [diffNewLoop, hk, ht, diffEntriesLoop_self]

theorem diffSizesLoop_self {oldS t : List (QStr × Int)}
    (h : ∀ kv ∈ t, lookupKV oldS kv.1 = some kv.2) :
    diffSizesLoop oldS t = ⟨[], [], []⟩ := by
  induction t with
  | nil => rfl
  | cons kv t ih =>
    obtain ⟨k, v⟩ := kv
    have hk : lookupKV oldS k = some v := h (k, v) (List.mem_cons_self _ _)
    have ht : diffSizesLoop oldS t = ⟨[], [], []⟩ :=
      ih fun kv hm => h kv (List.mem_cons_of_mem _ hm)
    simp [diffSizesLoop, hk, ht]

theorem diffNewLoop_added_eq (oldT : List (QStr × List QStr))
    (t : List (QStr × List QStr)) :
    (diffNewLoop oldT t).addedVTables =
      (t.filter (fun kv => !(containsKV oldT kv.1))).map Prod.fst := by
  induction t with
  | nil => rfl
  | cons kv t ih =>
    obtain ⟨k, v⟩ := kv
    simp only [diffNewLoop]
    cases hl : lookupKV oldT k with
    | none =>
      simp [List.filter, containsKV, hl, ih]
    | some ov =>
      by_cases hlen : v.length ≠ ov.length
      · simp [List.filter, containsKV, hl, hlen, ih]
      · simp [List.filter, containsKV, hl, hlen, ih]

theorem diffSizesLoop_added_eq (oldS : List (QStr × Int))
    (t : List (QStr × Int)) :
    (diffSizesLoop oldS t).added =
      (t.filter (fun kv => !(containsKV oldS kv.1))).map Prod.fst := by
  induction t with
  | nil => rfl
  | cons kv t ih =>
    obtain ⟨k, v⟩ := kv
    simp only [diffSizesLoop]
    cases hl : lookupKV oldS k with
    | none =>
      simp [List.filter, containsKV, hl, ih]
    | some ov =>
      by_cases hv : ov ≠ v
      · simp [List.filter, containsKV, hl, hv, ih]
      · simp [List.filter, containsKV, hl, hv, ih]

theorem mem_reimp_cons {oldT : List (QStr × List QStr)} {x : QStr × List QStr}
    {t : List (QStr × List QStr)} {pr : QStr × QStr}
    (h : pr ∈ (diffNewLoop oldT t).reimpMethods) :
    pr ∈ (diffNewLoop oldT (x :: t)).reimpMethods := by
  obtain ⟨k, v⟩ := x
  simp only [diffNewLoop]
  cases lookupKV oldT k with
  | none => simpa using h
  | some ov =>
    by_cases hlen : v.length ≠ ov.length
    · simpa [hlen] using h
    · simp [hlen]
      exact Or.inr h

theorem mem_modified_cons {oldT : List (QStr × List QStr)} {x : QStr × List QStr}
    {t : List (QStr × List QStr)} {pr : QStr × QStr}
    (h : pr ∈ (diffNewLoop oldT t).modifiedVTables) :
    pr ∈ (diffNewLoop oldT (x :: t)).modifiedVTables := by
  obtain ⟨k, v⟩ := x
  simp only [diffNewLoop]
  cases lookupKV oldT k with
  | none => simpa using h
  | some ov =>
    by_cases hlen : v.length ≠ ov.length
    · simp [hlen]
      exact Or.inr h
    · simp [hlen]
      exact Or.inr h

theorem mem_reimp_append {oldT : List (QStr × List QStr)}
    (p : List (QStr × List QStr)) {t : List (QStr × List QStr)} {pr : QStr × QStr}
    (h : pr ∈ (diffNewLoop oldT t).reimpMethods) :
    pr ∈ (diffNewLoop oldT (p ++ t)).reimpMethods := by
  induction p with
  | nil => simpa using h
  | cons x p ih => exact mem_reimp_cons ih

theorem mem_modified_append {oldT : List (QStr × List QStr)}
    (p : List (QStr × List QStr)) {t : List (QStr × List QStr)} {pr : QStr × QStr}
    (h : pr ∈ (diffNewLoop oldT t).modifiedVTables) :
    pr ∈ (diffNewLoop oldT (p ++ t)).modifiedVTables := by
  induction p with
  | nil => simpa using h
  | cons x p ih => exact mem_modified_cons ih

theorem diffEntriesLoop_reimp_mem :
    ∀ (nv ov : List QStr) (i : Nat), i < nv.length → nv.length = ov.length →
      diffVTableEntry (nv.getD i []) (ov.getD i []) = VTableDiffResult.Reimp →
      (ov.getD i [], nv.getD i []) ∈ (diffEntriesLoop nv ov).2 := by
  intro nv
  induction nv with
  | nil => intro ov i hi; simp at hi
  | cons n ns ih =>
    intro ov i hi hlen hr
    cases ov with
    | nil => simp at hlen
    | cons o os =>
      cases i with
      | zero =>
        simp only [List.getD_cons_zero] at hr ⊢
        simp only [diffEntriesLoop]
        rw [hr]
        simp
      | succ j =>
        have hj : j < ns.length := by simpa using hi
        have hlen' : ns.length = os.length := by simpa using hlen
        simp only [List.getD_cons_succ] at hr ⊢
        have hmem := ih os j hj hlen' hr
        simp only [diffEntriesLoop]
        cases diffVTableEntry n o with
        | Match => exact hmem
        | Mismatch => exact hmem
        | Reimp => exact List.mem_cons_of_mem _ hmem

theorem mem_keys_setKV {α : Type} {l : List (QStr × α)} {k k' : QStr} {v : α}
    (h : k ∈ (setKV l k' v).map Prod.fst) : k = k' ∨ k ∈ l.map Prod.fst := by
  induction l with
  | nil =>
    simp only [setKV, List.map_cons, List.map_nil, List.mem_singleton] at h
    exact Or.inl h
  | cons kv t ih =>
    obtain ⟨a, b⟩ := kv
    by_cases ha : a = k'
    · rw [setKV, if_pos ha] at h
      simp only [List.map_cons, List.mem_cons] at h
      rcases h with h | h
      · exact Or.inl h
      · exact Or.inr (by rw [List.map_cons]; exact List.mem_cons.mpr (Or.inr h))
    · rw [setKV, if_neg ha] at h
      simp only [List.map_cons, List.mem_cons] at h
      rcases h with h | h
      · exact Or.inr (by rw [List.map_cons]; exact List.mem_cons.mpr (Or.inl h))
      · rcases ih h with h | h
        · exact Or.inl h
        · exact Or.inr (by rw [List.map_cons]; exact List.mem_cons.mpr (Or.inr h))

theorem processBlock_size_keys {bl : List (QStr → Bool)} {info : Info} {b : QStr}
    {k : QStr} (h : k ∈ (processBlock bl info b).classSizes.map Prod.fst) :
    k ∈ info.classSizes.map Prod.fst ∨
      (pfx (strL "Class ") (firstLine b) = true ∧ k = (firstLine b).drop 6 ∧
        isBlacklisted bl k = false) := by
  rw [processBlock] at h
  dsimp only at h
  split at h
  · exact Or.inl h
  · split at h
    · rename_i hcl
      split at h
      · exact Or.inl h
      · split at h
        · exact Or.inl h
        · rename_i hbl x n hfs
          rcases mem_keys_setKV h with hk | hk
          · refine Or.inr ⟨hcl, hk, ?_⟩
            rw [hk]
            exact Bool.not_eq_true _ ▸ hbl
          · exact Or.inl hk
    · split at h
      · split at h
        · exact Or.inl h
        · exact Or.inl h
      · exact Or.inl h

theorem processBlock_vt_keys {bl : List (QStr → Bool)} {info : Info} {b : QStr}
    {k : QStr} (h : k ∈ (processBlock bl info b).classVTables.map Prod.fst) :
    k ∈ info.classVTables.map Prod.fst ∨
      (pfx (strL "Vtable for ") (firstLine b) = true ∧ k = (firstLine b).drop 11 ∧
        isBlacklisted bl k = false) := by
  rw [processBlock] at h
  dsimp only at h
  split at h
  · exact Or.inl h
  · split at h
    · split at h
      · exact Or.inl h
      · split at h
        · exact Or.inl h
        · exact Or.inl h
    · split at h
      · rename_i hvt
        split at h
        · exact Or.inl h
        · rename_i hbl
          rcases mem_keys_setKV h with hk | hk
          · refine Or.inr ⟨hvt, hk, ?_⟩
            rw [hk]
            exact Bool.not_eq_true _ ▸ hbl
          · exact Or.inl hk
      · exact Or.inl h

theorem foldl_size_keys (bl : List (QStr → Bool)) :
    ∀ (bs : List QStr) (info : Info) (k : QStr),
      k ∈ ((bs.foldl (processBlock bl) info).classSizes.map Prod.fst) →
      k ∈ info.classSizes.map Prod.fst ∨
        ∃ b ∈ bs, pfx (strL "Class ") (firstLine b) = true ∧
          k = (firstLine b).drop 6 ∧ isBlacklisted bl k = false := by
  intro bs
  induction bs with
  | nil => intro info k h; exact Or.inl (by simpa using h)
  | cons b bs ih =>
    intro info k h
    rw [List.foldl_cons] at h
    rcases ih (processBlock bl info b) k h with h' | h'
    · rcases processBlock_size_keys h' with h2 | h2
      · exact Or.inl h2
      · exact Or.inr ⟨b, List.mem_cons_self _ _, h2⟩
    · obtain ⟨b', hb', hp⟩ := h'
      exact Or.inr ⟨b', List.mem_cons_of_mem _ hb', hp⟩

theorem foldl_vt_keys (bl : List (QStr → Bool)) :
    ∀ (bs : List QStr) (info : Info) (k : QStr),
      k ∈ ((bs.foldl (processBlock bl) info).classVTables.map Prod.fst) →
      k ∈ info.classVTables.map Prod.fst ∨
        ∃ b ∈ bs, pfx (strL "Vtable for ") (firstLine b) = true ∧
          k = (firstLine b).drop 11 ∧ isBlacklisted bl k = false := by
  intro bs
  induction bs with
  | nil => intro info k h; exact Or.inl (by simpa using h)
  | cons b bs ih =>
    intro info k h
    rw [List.foldl_cons] at h
    rcases ih (processBlock bl info b) k h with h' | h'
    · rcases processBlock_vt_keys h' with h2 | h2
      · exact Or.inl h2
      · exact Or.inr ⟨b, List.mem_cons_self _ _, h2⟩
    · obtain ⟨b', hb', hp⟩ := h'
      exact Or.inr ⟨b', List.mem_cons_of_mem _ hb', hp⟩

theorem isBlacklisted_false_no_lt {bl : List (QStr → Bool)} {k : QStr}
    (h : isBlacklisted bl k = false) : k.any (fun c => c == '<') = false := by
  rw [isBlacklisted] at h
  by_cases hlt : k.any (fun c => c == '<') = true
  · rw [if_pos hlt] at h
    exact absurd h (by simp)
  · exact Bool.not_eq_true _ ▸ hlt

/-- Claim C2 (code bug): a vtable symbol that refers to the class destructor
only through a qualifying `::` tail (`Bar::Foo::~Foo` for class `Foo`), or to
a non-virtual-thunk destructor variant through such a tail, is NOT zeroed:
`qualifiedTailMatch` takes `symbol.right(expectedTail.length() - 2)`, which is
too short ever to end with `expectedTail`, so only exact equality matches. -/
theorem C2_tail_destructor_not_zeroed :
    matchDestructor (strL "Foo") (strL "Bar::Foo::~Foo") = false ∧
    matchDestructor (strL "Foo") (strL "X::Foo::_ZThn16_N3FooD1Ev") = false ∧
    matchDestructor (strL "Foo") (strL "Foo::~Foo") = true ∧
    matchDestructor (strL "Foo") (strL "Foo::_ZThn32_N3FooD0Ev") = true := by
  decide

/-- Claim C8 (confirmed): parsing the spec's two-block example dump stores
`classSizes["Foo"] = 16` and the normalized vtable with the destructor entry
zeroed. -/
theorem C8_example_dump_parse :
    lookupKV (parseOutput [] fooDump).classSizes (strL "Foo") = some 16 ∧
    lookupKV (parseOutput [] fooDump).classVTables (strL "Foo") =
      some [strL "0 0", strL "1 0", strL "2 Foo::bar"] := by
  decide

/-- Claim C1 (counterexample): class `C` is in both snapshots with equal
vtable lengths, the entries differ at position 0, and the NEW entry ends with
`__cxa_pure_virtual`; yet the pair lands in `modifiedVTables`, and
`reimpMethods` stays empty — the sentinel check reads the old entry. -/
theorem C1_counterexample_new_pure :
    (diffVTables implLib pureLib).reimpMethods = [] ∧
    (diffVTables implLib pureLib).modifiedVTables =
      [(strL "0 C::f", strL "0 __cxa_pure_virtual")] := by
  decide

/-- Claim C1 (amended): for a class present in both snapshots with equal
vtable lengths, at a position where the entries differ, if the OLD entry ends
with the pure-virtual sentinel then the position is classified `Reimp` and the
pair (old entry, new entry) is appended to `reimpMethods`. -/
theorem C1_reimp_on_old_pure (oldLib newLib : Info) (c : QStr)
    (nv ov : List QStr) (i : Nat)
    (hn : lookupKV newLib.classVTables c = some nv)
    (ho : lookupKV oldLib.classVTables c = some ov)
    (hlen : nv.length = ov.length)
    (hi : i < nv.length)
    (hne : nv.getD i [] ≠ ov.getD i [])
    (hsent : sfx (strL "__cxa_pure_virtual") (ov.getD i []) = true) :
    diffVTableEntry (nv.getD i []) (ov.getD i []) = VTableDiffResult.Reimp ∧
    (ov.getD i [], nv.getD i []) ∈ (diffVTables oldLib newLib).reimpMethods := by
  have hentry : diffVTableEntry (nv.getD i []) (ov.getD i []) = VTableDiffResult.Reimp := by
    rw [diffVTableEntry, if_neg hne, if_pos hsent]
  refine ⟨hentry, ?_⟩
  obtain ⟨p, q, hpq⟩ := lookupKV_split hn
  show _ ∈ (diffNewLoop oldLib.classVTables newLib.classVTables).reimpMethods
  rw [hpq]
  apply mem_reimp_append
  simp only [diffNewLoop, ho]
  rw [if_neg (fun hcon => hcon hlen)]
  exact List.mem_append_left _ (diffEntriesLoop_reimp_mem nv ov i hi hlen hentry)

/-- Instantiation of the amended C1 statement at a concrete pair of
snapshots in which the old entry of class `C` is the pure-virtual stub. -/
theorem C1_reimp_on_old_pure_witness :
    diffVTableEntry (strL "0 C::f") (strL "0 __cxa_pure_virtual") =
      VTableDiffResult.Reimp ∧
    (strL "0 __cxa_pure_virtual", strL "0 C::f") ∈
      (diffVTables pureLib implLib).reimpMethods :=
  C1_reimp_on_old_pure pureLib implLib (strL "C") [strL "0 C::f"]
    [strL "0 __cxa_pure_virtual"] 0 (by decide) (by decide) (by decide)
    (by decide) (by decide) (by decide)

/-- Claim C3 (confirmed): diffing a snapshot against itself yields all four
vtable-diff lists and all three size-diff lists empty; the hypotheses state
the `QHash` key-uniqueness invariant of the two maps. -/
theorem C3_self_diff_empty (S : Info)
    (hv : (S.classVTables.map Prod.fst).Nodup)
    (hs : (S.classSizes.map Prod.fst).Nodup) :
    diffVTables S S = ⟨[], [], [], []⟩ ∧ diffSizes S S = ⟨[], [], []⟩ := by
  constructor
  · have h1 : diffNewLoop S.classVTables S.classVTables = ⟨[], [], [], []⟩ :=
      diffNewLoop_self fun kv hm =>
        lookupKV_of_nodup hv (by rw [Prod.mk.eta]; exact hm)
    have h2 : S.classVTables.filter (fun kv => !(containsKV S.classVTables kv.1)) = [] := by
      rw [List.filter_eq_nil_iff]
      intro kv hm
      have hc : containsKV S.classVTables kv.1 = true := by
        rw [containsKV, lookupKV_of_nodup hv (by rw [Prod.mk.eta]; exact hm)]
        rfl
      simp [hc]
    simp only [diffVTables, h1, h2]
    rfl
  · have h1 : diffSizesLoop S.classSizes S.classSizes = ⟨[], [], []⟩ :=
      diffSizesLoop_self fun kv hm =>
        lookupKV_of_nodup hs (by rw [Prod.mk.eta]; exact hm)
    have h2 : S.classSizes.filter (fun kv => !(containsKV S.classSizes kv.1)) = [] := by
      rw [List.filter_eq_nil_iff]
      intro kv hm
      have hc : containsKV S.classSizes kv.1 = true := by
        rw [containsKV, lookupKV_of_nodup hs (by rw [Prod.mk.eta]; exact hm)]
        rfl
      simp [hc]
    simp only [diffSizes, h1, h2]
    rfl

/-- Instantiation of the self-diff claim at a concrete two-class snapshot. -/
theorem C3_self_diff_empty_witness :
    diffVTables sampleNewLib sampleNewLib = ⟨[], [], [], []⟩ ∧
    diffSizes sampleNewLib sampleNewLib = ⟨[], [], []⟩ :=
  C3_self_diff_empty sampleNewLib (by decide) (by decide)

/-- Claim C4 (confirmed): `diffVTables A B`'s additions equal
`diffVTables B A`'s removals as lists, and both consist of exactly the class
names with a vtable in `B` but none in `A`. -/
theorem C4_added_removed_symmetry (A B : Info) :
    (diffVTables A B).addedVTables = (diffVTables B A).removedVTables ∧
    ∀ c : QStr, c ∈ (diffVTables A B).addedVTables ↔
      (containsKV B.classVTables c = true ∧ containsKV A.classVTables c = false) := by
  have hadd : (diffVTables A B).addedVTables =
      (B.classVTables.filter (fun kv => !(containsKV A.classVTables kv.1))).map Prod.fst := by
    show (diffNewLoop A.classVTables B.classVTables).addedVTables = _
    exact diffNewLoop_added_eq _ _
  have hrem : (diffVTables B A).removedVTables =
      (diffNewLoop B.classVTables A.classVTables).removedVTables ++
        ((B.classVTables.filter (fun kv => !(containsKV A.classVTables kv.1))).map Prod.fst) := rfl
  constructor
  · rw [hadd, hrem, diffNewLoop_removed_nil, List.nil_append]
  · intro c
    rw [hadd]
    constructor
    · intro hc
      obtain ⟨kv, hkv, hfst⟩ := List.mem_map.mp hc
      have hmf := List.mem_filter.mp hkv
      refine ⟨?_, ?_⟩
      · rw [containsKV_true_iff]
        exact hfst ▸ List.mem_map.mpr ⟨kv, hmf.1, rfl⟩
      · have h2 : containsKV A.classVTables kv.1 = false := by simpa using hmf.2
        rw [← hfst]
        exact h2
    · rintro ⟨hB, hA⟩
      obtain ⟨v, hv⟩ : ∃ v, (c, v) ∈ B.classVTables := by
        have hmem := (containsKV_true_iff _ _).mp hB
        obtain ⟨kv, hkv, hfst⟩ := List.mem_map.mp hmem
        refine ⟨kv.2, ?_⟩
        rw [← hfst, Prod.mk.eta]
        exact hkv
      refine List.mem_map.mpr ⟨(c, v), List.mem_filter.mpr ⟨hv, ?_⟩, rfl⟩
      simp [hA]

/-- Claim C5 (confirmed): no key of a parsed snapshot's maps contains the
character `<`, for every dump text and every blacklist configuration. -/
theorem C5_no_template_keys (bl : List (QStr → Bool)) (ba : QStr) (k : QStr)
    (h : k ∈ (parseOutput bl ba).classSizes.map Prod.fst ∨
         k ∈ (parseOutput bl ba).classVTables.map Prod.fst) :
    k.any (fun c => c == '<') = false := by
  rcases h with h | h
  · rcases foldl_size_keys bl (splitOnL (strL "\n\n") ba) emptyInfo k h with h' | h'
    · simp [emptyInfo] at h'
    · obtain ⟨b, hb, hcl, hk, hbl⟩ := h'
      exact isBlacklisted_false_no_lt hbl
  · rcases foldl_vt_keys bl (splitOnL (strL "\n\n") ba) emptyInfo k h with h' | h'
    · simp [emptyInfo] at h'
    · obtain ⟨b, hb, hvt, hk, hbl⟩ := h'
      exact isBlacklisted_false_no_lt hbl

/-- Instantiation of the no-template-key claim at the example dump. -/
theorem C5_no_template_keys_witness :
    (strL "Foo").any (fun c => c == '<') = false :=
  C5_no_template_keys [] fooDump (strL "Foo") (Or.inl (by decide))

/-- Claim C6 (counterexample): for the genuine nested-class vtable block, the
Class-Name Resolver would resolve the label to `Outer::Inner`, but the parser
stores the raw label itself: there is no key `Outer::Inner`, while the full
label `Outer::Inner::_ZTVN5Outer5InnerE` is a key. -/
theorem C6_counterexample_nested_key :
    lookupKV (parseOutput [] nestedDump).classVTables (strL "Outer::Inner") = none ∧
    containsKV (parseOutput [] nestedDump).classVTables
      (strL "Outer::Inner::_ZTVN5Outer5InnerE") = true ∧
    parseClassName (strL "Outer::Inner::_ZTVN5Outer5InnerE") =
      (strL "Inner", strL "Outer::Inner") := by
  decide

/-- Claim C6 (amended): `parseOutput` uses the raw label after `"Class "` or
`"Vtable for "` unresolved, both for the blacklist check and as the stored
key: every key of a parsed snapshot is the raw label of some block of the
dump, and passed the blacklist check as that raw label. -/
theorem C6_raw_label_keys (bl : List (QStr → Bool)) (ba : QStr) (k : QStr) :
    (k ∈ (parseOutput bl ba).classSizes.map Prod.fst →
      isBlacklisted bl k = false ∧ ∃ b ∈ splitOnL (strL "\n\n") ba,
        pfx (strL "Class ") (firstLine b) = true ∧ k = (firstLine b).drop 6) ∧
    (k ∈ (parseOutput bl ba).classVTables.map Prod.fst →
      isBlacklisted bl k = false ∧ ∃ b ∈ splitOnL (strL "\n\n") ba,
        pfx (strL "Vtable for ") (firstLine b) = true ∧ k = (firstLine b).drop 11) := by
  constructor
  · intro h
    rcases foldl_size_keys bl (splitOnL (strL "\n\n") ba) emptyInfo k h with h' | h'
    · simp [emptyInfo] at h'
    · obtain ⟨b, hb, hcl, hk, hbl⟩ := h'
      exact ⟨hbl, b, hb, hcl, hk⟩
  · intro h
    rcases foldl_vt_keys bl (splitOnL (strL "\n\n") ba) emptyInfo k h with h' | h'
    · simp [emptyInfo] at h'
    · obtain ⟨b, hb, hvt, hk, hbl⟩ := h'
      exact ⟨hbl, b, hb, hvt, hk⟩

/-- Instantiation of the raw-label-key statement at the nested-class dump:
the stored key is the block's full raw label. -/
theorem C6_raw_label_keys_witness :
    isBlacklisted [] (strL "Outer::Inner::_ZTVN5Outer5InnerE") = false ∧
    ∃ b ∈ splitOnL (strL "\n\n") nestedDump,
      pfx (strL "Vtable for ") (firstLine b) = true ∧
      strL "Outer::Inner::_ZTVN5Outer5InnerE" = (firstLine b).drop 11 :=
  (C6_raw_label_keys [] nestedDump (strL "Outer::Inner::_ZTVN5Outer5InnerE")).2
    (by decide)

/-- Claim C7 (confirmed): a class in both snapshots whose vtable lengths
differ contributes exactly the sentinel pair `(className, "size mismatch")`
to `modifiedVTables`, with no positional comparison and no contribution to
`reimpMethods`, and that class appears in neither `addedVTables` nor
`removedVTables`. -/
theorem C7_size_mismatch_sentinel (oldLib newLib : Info) (c : QStr)
    (nv ov : List QStr) (t : List (QStr × List QStr))
    (hn : lookupKV newLib.classVTables c = some nv)
    (ho : lookupKV oldLib.classVTables c = some ov)
    (hlen : nv.length ≠ ov.length) :
    diffNewLoop oldLib.classVTables ((c, nv) :: t) =
      { diffNewLoop oldLib.classVTables t with
        modifiedVTables :=
          (c, strL "size mismatch") ::
            (diffNewLoop oldLib.classVTables t).modifiedVTables } ∧
    (c, strL "size mismatch") ∈ (diffVTables oldLib newLib).modifiedVTables ∧
    c ∉ (diffVTables oldLib newLib).addedVTables ∧
    c ∉ (diffVTables oldLib newLib).removedVTables := by
  refine ⟨?_, ?_, ?_, ?_⟩
  · simp only [diffNewLoop, ho]
    rw [if_pos hlen]
  · obtain ⟨p, q, hpq⟩ := lookupKV_split hn
    show _ ∈ (diffNewLoop oldLib.classVTables newLib.classVTables).modifiedVTables
    rw [hpq]
    apply mem_modified_append
    simp only [diffNewLoop, ho]
    rw [if_pos hlen]
    exact List.mem_cons_self _ _
  · intro hc
    have he : (diffVTables oldLib newLib).addedVTables =
        (diffNewLoop oldLib.classVTables newLib.classVTables).addedVTables := rfl
    rw [he, diffNewLoop_added_eq] at hc
    obtain ⟨kv, hkv, hfst⟩ := List.mem_map.mp hc
    have hmf := List.mem_filter.mp hkv
    have hfalse : containsKV oldLib.classVTables kv.1 = false := by simpa using hmf.2
    rw [hfst, containsKV, ho] at hfalse
    simp at hfalse
  · intro hc
    have he : (diffVTables oldLib newLib).removedVTables =
        (diffNewLoop oldLib.classVTables newLib.classVTables).removedVTables ++
          ((oldLib.classVTables.filter
              (fun kv => !(containsKV newLib.classVTables kv.1))).map Prod.fst) := rfl
    rw [he, diffNewLoop_removed_nil, List.nil_append] at hc
    obtain ⟨kv, hkv, hfst⟩ := List.mem_map.mp hc
    have hmf := List.mem_filter.mp hkv
    have hfalse : containsKV newLib.classVTables kv.1 = false := by simpa using hmf.2
    rw [hfst, containsKV, hn] at hfalse
    simp at hfalse

/-- Instantiation of the size-mismatch-sentinel claim at concrete snapshots
whose vtables for `C` have lengths 2 (old) and 1 (new). -/
theorem C7_size_mismatch_sentinel_witness :
    diffNewLoop mismatchOldLib.classVTables [(strL "C", [strL "0 a"])] =
      { diffNewLoop mismatchOldLib.classVTables [] with
        modifiedVTables :=
          (strL "C", strL "size mismatch") ::
            (diffNewLoop mismatchOldLib.classVTables []).modifiedVTables } ∧
    (strL "C", strL "size mismatch") ∈
      (diffVTables mismatchOldLib mismatchNewLib).modifiedVTables ∧
    strL "C" ∉ (diffVTables mismatchOldLib mismatchNewLib).addedVTables ∧
    strL "C" ∉ (diffVTables mismatchOldLib mismatchNewLib).removedVTables :=
  C7_size_mismatch_sentinel mismatchOldLib mismatchNewLib (strL "C")
    [strL "0 a"] [strL "0 a", strL "1 b"] [] (by decide) (by decide) (by decide)

/-- Claim C9 (confirmed): parsing is total — every function of the embedding
is a total Lean function — and the skip semantics hold: a missing file gives
the empty snapshot, a block with fewer than two lines is skipped, a `Class`
block whose second line has no `size=(\d+)` match is skipped, a vtable line
without a parseable leading integer is dropped, and a `0`/`-0` symbol whose
hex reinterpretation fails drops the line. -/
theorem C9_total_parse :
    (∀ bl : List (QStr → Bool), parseFile bl none = emptyInfo) ∧
    (∀ (bl : List (QStr → Bool)) (info : Info) (b : QStr),
      (splitOnL (strL "\n") b).length < 2 → processBlock bl info b = info) ∧
    (∀ (bl : List (QStr → Bool)) (info : Info) (b : QStr),
      pfx (strL "Class ") (firstLine b) = true →
      findSize ((splitOnL (strL "\n") b).getD 1 []) = none →
      processBlock bl info b = info) ∧
    (∀ className line : QStr,
      toIntQ? (leftQ (simplifiedL line) (idxOfChar ' ' (simplifiedL line))) = none →
      normalizeLine className line = none) ∧
    (∀ (className line : QStr) (num : Int),
      toIntQ? (leftQ (simplifiedL line) (idxOfChar ' ' (simplifiedL line))) = some num →
      (pfx (strL "-0") (zeroIfDtor className (extractSym (simplifiedL line))) ||
        pfx (strL "0") (zeroIfDtor className (extractSym (simplifiedL line)))) = true →
      toLongLongHex? (uChop (zeroIfDtor className (extractSym (simplifiedL line)))) = none →
      normalizeLine className line = none) := by
  refine ⟨fun bl => rfl, ?_, ?_, ?_, ?_⟩
  · intro bl info b hlt
    rw [processBlock]
    dsimp only
    rw [if_pos hlt]
  · intro bl info b hcl hfs
    rw [processBlock]
    dsimp only
    rw [firstLine] at hcl
    by_cases hlen : (splitOnL (strL "\n") b).length < 2
    · rw [if_pos hlen]
    · rw [if_neg hlen, if_pos hcl, hfs]
      split
      · rfl
      · rfl
  · intro cn line h
    simp only [normalizeLine, h]
  · intro cn line num h1 h2 h3
    simp only [normalizeLine, h1, h2, h3]
    simp

/-- Closed instances of the totality and skip properties: a missing file, a
one-line block, a `Class` block without a size match, a vtable line without a
leading integer, and a vtable line with an unparseable hex token. -/
theorem C9_total_parse_witness :
    parseFile [] none = emptyInfo ∧
    processBlock [] emptyInfo (strL "hello") = emptyInfo ∧
    processBlock [] emptyInfo (strL "Class X\nnothing here") = emptyInfo ∧
    normalizeLine (strL "C") (strL "xyz a") = none ∧
    normalizeLine (strL "C") (strL "1 0xZZ") = none :=
  ⟨C9_total_parse.1 [],
   C9_total_parse.2.1 [] emptyInfo (strL "hello") (by decide),
   C9_total_parse.2.2.1 [] emptyInfo (strL "Class X\nnothing here")
     (by decide) (by decide),
   C9_total_parse.2.2.2.1 (strL "C") (strL "xyz a") (by decide),
   C9_total_parse.2.2.2.2 (strL "C") (strL "1 0xZZ") 1
     (by decide) (by decide) (by decide)⟩

/-- Claim C10 (confirmed): in every diff, names in `addedVTables`/`added` are
keys of the new snapshot only, names in `removedVTables`/`removed` are keys of
the old snapshot only, and no name is in both the added and the removed list. -/
theorem C10_added_removed_exclusive (A B : Info) (c : QStr) :
    (c ∈ (diffVTables A B).addedVTables →
      containsKV B.classVTables c = true ∧ containsKV A.classVTables c = false) ∧
    (c ∈ (diffVTables A B).removedVTables →
      containsKV A.classVTables c = true ∧ containsKV B.classVTables c = false) ∧
    ¬(c ∈ (diffVTables A B).addedVTables ∧ c ∈ (diffVTables A B).removedVTables) ∧
    (c ∈ (diffSizes A B).added →
      containsKV B.classSizes c = true ∧ containsKV A.classSizes c = false) ∧
    (c ∈ (diffSizes A B).removed →
      containsKV A.classSizes c = true ∧ containsKV B.classSizes c = false) ∧
    ¬(c ∈ (diffSizes A B).added ∧ c ∈ (diffSizes A B).removed) := by
  have hvadd : ∀ hc : c ∈ (diffVTables A B).addedVTables,
      containsKV B.classVTables c = true ∧ containsKV A.classVTables c = false := by
    intro hc
    have he : (diffVTables A B).addedVTables =
        (diffNewLoop A.classVTables B.classVTables).addedVTables := rfl
    rw [he, diffNewLoop_added_eq] at hc
    obtain ⟨kv, hkv, hfst⟩ := List.mem_map.mp hc
    have hmf := List.mem_filter.mp hkv
    constructor
    · rw [containsKV_true_iff]
      exact hfst ▸ List.mem_map.mpr ⟨kv, hmf.1, rfl⟩
    · have h2 : containsKV A.classVTables kv.1 = false := by simpa using hmf.2
      rw [← hfst]
      exact h2
  have hvrem : ∀ hc : c ∈ (diffVTables A B).removedVTables,
      containsKV A.classVTables c = true ∧ containsKV B.classVTables c = false := by
    intro hc
    have he : (diffVTables A B).removedVTables =
        (diffNewLoop A.classVTables B.classVTables).removedVTables ++
          ((A.classVTables.filter
              (fun kv => !(containsKV B.classVTables kv.1))).map Prod.fst) := rfl
    rw [he, diffNewLoop_removed_nil, List.nil_append] at hc
    obtain ⟨kv, hkv, hfst⟩ := List.mem_map.mp hc
    have hmf := List.mem_filter.mp hkv
    constructor
    · rw [containsKV_true_iff]
      exact hfst ▸ List.mem_map.mpr ⟨kv, hmf.1, rfl⟩
    · have h2 : containsKV B.classVTables kv.1 = false := by simpa using hmf.2
      rw [← hfst]
      exact h2
  have hsadd : ∀ hc : c ∈ (diffSizes A B).added,
      containsKV B.classSizes c = true ∧ containsKV A.classSizes c = false := by
    intro hc
    have he : (diffSizes A B).added =
        (diffSizesLoop A.classSizes B.classSizes).added := rfl
    rw [he, diffSizesLoop_added_eq] at hc
    obtain ⟨kv, hkv, hfst⟩ := List.mem_map.mp hc
    have hmf := List.mem_filter.mp hkv
    constructor
    · rw [containsKV_true_iff]
      exact hfst ▸ List.mem_map.mpr ⟨kv, hmf.1, rfl⟩
    · have h2 : containsKV A.classSizes kv.1 = false := by simpa using hmf.2
      rw [← hfst]
      exact h2
  have hsrem : ∀ hc : c ∈ (diffSizes A B).removed,
      containsKV A.classSizes c = true ∧ containsKV B.classSizes c = false := by
    intro hc
    have he : (diffSizes A B).removed =
        (diffSizesLoop A.classSizes B.classSizes).removed ++
          ((A.classSizes.filter
              (fun kv => !(containsKV B.classSizes kv.1))).map Prod.fst) := rfl
    have hnil : (diffSizesLoop A.classSizes B.classSizes).removed = [] := by
      induction B.classSizes with
      | nil => rfl
      | cons kv t ih =>
        obtain ⟨k, v⟩ := kv
        simp only [diffSizesLoop]
        cases lookupKV A.classSizes k with
        | none => simpa using ih
        | some ov =>
          by_cases hv : ov ≠ v
          · simpa [hv] using ih
          · simpa [hv] using ih
    rw [he, hnil, List.nil_append] at hc
    obtain ⟨kv, hkv, hfst⟩ := List.mem_map.mp hc
    have hmf := List.mem_filter.mp hkv
    constructor
    · rw [containsKV_true_iff]
      exact hfst ▸ List.mem_map.mpr ⟨kv, hmf.1, rfl⟩
    · have h2 : containsKV B.classSizes kv.1 = false := by simpa using hmf.2
      rw [← hfst]
      exact h2
  refine ⟨hvadd, hvrem, ?_, hsadd, hsrem, ?_⟩
  · rintro ⟨h1, h2⟩
    exact absurd (hvadd h1).1 (by simp [(hvrem h2).2])
  · rintro ⟨h1, h2⟩
    exact absurd (hsadd h1).1 (by simp [(hsrem h2).2])

/-- Instantiation of the exclusivity claim: `Bar` is added in the sample
size diff, hence a key of the new snapshot only. -/
theorem C10_added_removed_exclusive_witness :
    containsKV sampleNewLib.classSizes (strL "Bar") = true ∧
    containsKV sampleOldLib.classSizes (strL "Bar") = false :=
  (C10_added_removed_exclusive sampleOldLib sampleNewLib (strL "Bar")).2.2.2.1
    (by decide)
